import Mathlib

/-!
Verification of the Mandelbrot rendering kernel in `src/lib.rs`.

The Rust code works on `num::Complex<f64>`.  We embed complex samples as
pairs of rational numbers (`Cx`), an exact stand-in for the floating point
pair: every arithmetic operation used by the kernel (addition, subtraction,
multiplication, scaling, squared magnitude, comparison against the constant
bound 4.0) is modelled by the corresponding exact rational operation.
`u8` narrowing (`as u8`) is modelled by `% 256` on `Nat`, and `usize` by
`Nat`.  `Vec<Pixel>` becomes `List Pixel`; the rayon parallel iterator
pipeline `(0..h).flat_map(|y| (0..w).map(|x| ...)).collect()` collects in
row-major order, embedded as `(List.range h).bind (fun y => (List.range w).map ...)`.
-/

/-- Complex sample: embedding of `num::Complex<f64>` as a pair of rationals. -/
structure Cx where
  re : ℚ
  im : ℚ
deriving DecidableEq, Repr

/-- Embedding of complex addition from the `num` crate. -/
def Cx.add (a b : Cx) : Cx := ⟨a.re + b.re, a.im + b.im⟩

/-- Embedding of complex subtraction from the `num` crate. -/
def Cx.sub (a b : Cx) : Cx := ⟨a.re - b.re, a.im - b.im⟩

/-- Embedding of complex multiplication from the `num` crate. -/
def Cx.mul (a b : Cx) : Cx :=
  ⟨a.re * b.re - a.im * b.im, a.re * b.im + a.im * b.re⟩

/-- Embedding of `Complex::norm_sqr` from the `num` crate: `re*re + im*im`. -/
def Cx.norm_sqr (a : Cx) : ℚ := a.re * a.re + a.im * a.im

/-- Embedding of `Complex::scale` from the `num` crate: multiply both parts
by a real factor. -/
def Cx.scale (a : Cx) (t : ℚ) : Cx := ⟨a.re * t, a.im * t⟩

/-- Embedding of `struct Color(u8, u8, u8)` from `src/lib.rs`; each channel is
a `Nat` kept below 256 by the `% 256` narrowing at every construction site. -/
structure Color where
  r : Nat
  g : Nat
  b : Nat
deriving DecidableEq, Repr

/-- Embedding of `struct Pixel` from `src/lib.rs`: position and color. -/
structure Pixel where
  x : Nat
  y : Nat
  color : Color
deriving DecidableEq, Repr

/-- Embedding of the `for n in 0..iteration_max` loop body of `escape_time`
in `src/lib.rs`, with the loop counter `n` and remaining `fuel` explicit:
each step sets `z = z*z + c` and returns `some n` as soon as
`z.norm_sqr() > 4.0`. -/
def escapeLoop (c z : Cx) (n fuel : Nat) : Option Nat :=
  match fuel with
  | 0 => none
  | fuel + 1 =>
    let z1 := (z.mul z).add c
    if z1.norm_sqr > 4 then some n
    else escapeLoop c z1 (n + 1) fuel

/-- Embedding of `escape_time` from `src/lib.rs`: start from `z = 0`, apply
`z -> z*z + c` up to `iteration_max` times, return `some n` at the first `n`
whose iterate has squared magnitude above 4, else `none`. -/
def escape_time (c : Cx) (iteration_max : Nat) : Option Nat :=
  escapeLoop c ⟨0, 0⟩ 0 iteration_max

/-- Embedding of `complex_to_grayscale` from `src/lib.rs`: match on
`escape_time`; `Some(count)` gives `Color(count as u8, count as u8, count as u8)`
(narrowing = `% 256`), `None` gives `Color(0,0,0)`. -/
def complex_to_grayscale (c : Cx) (iteration_max : Nat) : Color :=
  match escape_time c iteration_max with
  | some escape_iter_count =>
      ⟨escape_iter_count % 256, escape_iter_count % 256, escape_iter_count % 256⟩
  | none => ⟨0, 0, 0⟩

/-- Embedding of `pixel_to_complex` from `src/lib.rs`: resolve the four
bounds from the two corners, scale the extent by `x / image_width` and
`y / image_height`, and add to the left/top bounds. -/
def pixel_to_complex (x y image_width image_height : Nat)
    (top_left bottom_right : Cx) : Cx :=
  let left_bound := top_left.re
  let top_bound := top_left.im
  let bottom_bound := bottom_right.im
  let right_bound := bottom_right.re
  let rect_width := (right_bound - left_bound) * (x : ℚ) / (image_width : ℚ)
  let rect_height := (bottom_bound - top_bound) * (y : ℚ) / (image_height : ℚ)
  ⟨left_bound + rect_width, top_bound + rect_height⟩

/-- Embedding of `calculate_pixel_data` from `src/lib.rs`: derive the corner
pair from `origin` and `scale_factor` (`(-2.0, 1.2)` and `(0.5, -1.2)` scaled),
then for every pixel position in row-major order produce the `Pixel` holding
the grayscale color of its complex sample.  The rational constants `6/5` and
`1/2` embed the decimal literals `1.2` and `0.5`. -/
def calculate_pixel_data (image_width image_height : Nat) (scale_factor : ℚ)
    (origin : Cx) (iteration_max : Nat) : List Pixel :=
  let top_left := origin.add (Cx.scale ⟨-2, 6/5⟩ scale_factor)
  let bottom_right := origin.add (Cx.scale ⟨1/2, -(6/5)⟩ scale_factor)
  (List.range image_height).flatMap fun pixel_y =>
    (List.range image_width).map fun pixel_x =>
      let c := pixel_to_complex pixel_x pixel_y image_width image_height
        top_left bottom_right
      let color := complex_to_grayscale c iteration_max
      ⟨pixel_x, pixel_y, color⟩

/-- Specification-side orbit: `zIter c n` is the value of `z` after `n`
applications of `z -> z*z + c` starting from `0`. -/
def zIter (c : Cx) : Nat → Cx
  | 0 => ⟨0, 0⟩
  | n + 1 => ((zIter c n).mul (zIter c n)).add c

/-- Equation lemma: one unfolding step of the escape loop. -/
lemma escapeLoop_succ (c z : Cx) (n fuel : Nat) :
    escapeLoop c z n (fuel + 1) =
      if 4 < ((z.mul z).add c).norm_sqr then some n
      else escapeLoop c ((z.mul z).add c) (n + 1) fuel := rfl

/-- Equation lemma: one unfolding step of the orbit. -/
lemma zIter_succ (c : Cx) (n : Nat) :
    zIter c (n + 1) = ((zIter c n).mul (zIter c n)).add c := rfl

/-- One application of the update rule starting from zero gives back `c`. -/
lemma zIter_one (c : Cx) : zIter c 1 = c := by
  simp [zIter, Cx.mul, Cx.add]

/-- Characterization of the escape loop returning `some n`: it does so exactly
when `n` lies in the window `[start, start + fuel)`, the orbit value after
`n + 1` applications exceeds the bound, and no earlier index in the window
does. -/
lemma escapeLoop_eq_some_iff (c : Cx) (fuel : Nat) :
    ∀ start n : Nat,
      (escapeLoop c (zIter c start) start fuel = some n ↔
        start ≤ n ∧ n < start + fuel ∧ 4 < (zIter c (n + 1)).norm_sqr ∧
          ∀ k, start ≤ k → k < n → (zIter c (k + 1)).norm_sqr ≤ 4) := by
  induction fuel with
  | zero =>
    intro start n
    constructor
    · intro h
      exact absurd h (by simp [escapeLoop])
    · rintro ⟨h1, h2, -, -⟩
      omega
  | succ fuel ih =>
    intro start n
    rw [escapeLoop_succ, ← zIter_succ]
    by_cases h : 4 < (zIter c (start + 1)).norm_sqr
    · rw [if_pos h]
      constructor
      · intro hsome
        have hn : n = start := (Option.some.inj hsome).symm
        subst hn
        refine ⟨Nat.le_refl _, by omega, h, ?_⟩
        intro k hk1 hk2
        exact absurd (Nat.lt_of_le_of_lt hk1 hk2) (Nat.lt_irrefl _)
      · rintro ⟨h1, h2, h3, h4⟩
        have hn : n = start := by
          by_contra hne
          have hlt : start < n := by omega
          exact absurd h (not_lt.mpr (h4 start (Nat.le_refl _) hlt))
        subst hn
        rfl
    · rw [if_neg h]
      have hle : (zIter c (start + 1)).norm_sqr ≤ 4 := not_lt.mp h
      rw [ih (start + 1) n]
      constructor
      · rintro ⟨h1, h2, h3, h4⟩
        refine ⟨by omega, by omega, h3, ?_⟩
        intro k hk1 hk2
        rcases Nat.eq_or_lt_of_le hk1 with heq | hlt
        · rw [← heq]
          exact hle
        · exact h4 k hlt hk2
      · rintro ⟨h1, h2, h3, h4⟩
        have hsn : start + 1 ≤ n := by
          rcases Nat.eq_or_lt_of_le h1 with heq | hlt
          · exfalso
            rw [← heq] at h3
            exact absurd h3 h
          · omega
        exact ⟨hsn, by omega, h3, fun k hk1 hk2 => h4 k (by omega) hk2⟩

/-- Characterization of the escape loop returning `none`: every index in the
window keeps the orbit within the bound. -/
lemma escapeLoop_eq_none_iff (c : Cx) (fuel : Nat) :
    ∀ start : Nat,
      (escapeLoop c (zIter c start) start fuel = none ↔
        ∀ k, start ≤ k → k < start + fuel → (zIter c (k + 1)).norm_sqr ≤ 4) := by
  induction fuel with
  | zero =>
    intro start
    simp only [escapeLoop]
    constructor
    · intro _ k hk1 hk2
      exact absurd (Nat.lt_of_le_of_lt hk1 hk2) (by omega)
    · intro _
      trivial
  | succ fuel ih =>
    intro start
    rw [escapeLoop_succ, ← zIter_succ]
    by_cases h : 4 < (zIter c (start + 1)).norm_sqr
    · rw [if_pos h]
      constructor
      · intro hcontra
        exact absurd hcontra (by simp)
      · intro hall
        exact absurd h (not_lt.mpr (hall start (Nat.le_refl _) (by omega)))
    · rw [if_neg h]
      have hle : (zIter c (start + 1)).norm_sqr ≤ 4 := not_lt.mp h
      rw [ih (start + 1)]
      constructor
      · intro hall k hk1 hk2
        rcases Nat.eq_or_lt_of_le hk1 with heq | hlt
        · rw [← heq]
          exact hle
        · exact hall k hlt (by omega)
      · intro hall k hk1 hk2
        exact hall k (by omega) (by omega)

/-- Specification of `escape_time c m = some n` in terms of the orbit. -/
lemma escape_time_eq_some_iff (c : Cx) (m n : Nat) :
    escape_time c m = some n ↔
      n < m ∧ 4 < (zIter c (n + 1)).norm_sqr ∧
        ∀ k, k < n → (zIter c (k + 1)).norm_sqr ≤ 4 := by
  have h := escapeLoop_eq_some_iff c m 0 n
  simp only [Nat.zero_le, true_and, Nat.zero_add, true_implies] at h
  exact h

/-- Specification of `escape_time c m = none` in terms of the orbit. -/
lemma escape_time_eq_none_iff (c : Cx) (m : Nat) :
    escape_time c m = none ↔
      ∀ k, k < m → (zIter c (k + 1)).norm_sqr ≤ 4 := by
  have h := escapeLoop_eq_none_iff c m 0
  simp only [Nat.zero_le, true_implies, Nat.zero_add] at h
  exact h

/-- The orbit of the origin never leaves the origin. -/
lemma zIter_origin (n : Nat) : zIter ⟨0, 0⟩ n = ⟨0, 0⟩ := by
  induction n with
  | zero => rfl
  | succ n ih => simp [zIter, ih, Cx.mul, Cx.add]

/-- Length of a row-major grid built by mapping a two-argument function over
all (row, column) pairs. -/
lemma rowMajor_length {α : Type} (W H : Nat) (f : Nat → Nat → α) :
    ((List.range H).flatMap fun row => (List.range W).map (f row)).length
      = H * W := by
  induction H with
  | zero => simp
  | succ H ih =>
    rw [List.range_succ, List.flatMap_append, List.length_append, ih]
    simp [Nat.succ_mul]

/-- Element of a row-major grid at linear index `row * W + column`. -/
lemma rowMajor_getElem {α : Type} (W x : Nat) (hx : x < W) (f : Nat → Nat → α) :
    ∀ H y, y < H →
      ((List.range H).flatMap fun row => (List.range W).map (f row))[y * W + x]?
        = some (f y x) := by
  intro H
  induction H with
  | zero =>
    intro y hy
    exact absurd hy (Nat.not_lt_zero _)
  | succ H ih =>
    intro y hy
    rw [List.range_succ, List.flatMap_append]
    simp only [List.flatMap_cons, List.flatMap_nil, List.append_nil]
    rcases Nat.lt_or_ge y H with hyH | hyH
    · rw [List.getElem?_append, rowMajor_length]
      have hcalc : y * W + x < H * W := by
        calc y * W + x < y * W + W := Nat.add_lt_add_left hx _
          _ = (y + 1) * W := by ring
          _ ≤ H * W := Nat.mul_le_mul_right W (Nat.succ_le_of_lt hyH)
      rw [if_pos hcalc]
      exact ih y hyH
    · have hyH2 : y = H := by omega
      subst hyH2
      rw [List.getElem?_append_right]
      · rw [rowMajor_length, Nat.add_sub_cancel_left]
        simp [List.getElem?_map, List.getElem?_range hx]
      · rw [rowMajor_length]
        exact Nat.le_add_right _ _

/-- Unfolding of `calculate_pixel_data` to an explicit row-major grid. -/
lemma calculate_pixel_data_eq (image_width image_height : Nat)
    (scale_factor : ℚ) (origin : Cx) (iteration_max : Nat) :
    calculate_pixel_data image_width image_height scale_factor origin
        iteration_max =
      (List.range image_height).flatMap fun row =>
        (List.range image_width).map fun col =>
          Pixel.mk col row (complex_to_grayscale
            (pixel_to_complex col row image_width image_height
              (origin.add (Cx.scale ⟨-2, 6/5⟩ scale_factor))
              (origin.add (Cx.scale ⟨1/2, -(6/5)⟩ scale_factor)))
            iteration_max) := rfl

/-- C1: `escape_time c iteration_max` starts from `z = 0`, applies
`z -> z*z + c` up to `iteration_max` times, and returns `some n` exactly when
`n` is the 0-based index of the first application after which the squared
magnitude of `z` exceeds 4; it returns `none` exactly when all
`iteration_max` applications stay within the bound. -/
theorem escape_time_correct (c : Cx) (iteration_max : Nat) :
    (∀ n, escape_time c iteration_max = some n ↔
      n < iteration_max ∧ 4 < (zIter c (n + 1)).norm_sqr ∧
        ∀ k, k < n → (zIter c (k + 1)).norm_sqr ≤ 4) ∧
    (escape_time c iteration_max = none ↔
      ∀ k, k < iteration_max → (zIter c (k + 1)).norm_sqr ≤ 4) :=
  ⟨fun n => escape_time_eq_some_iff c iteration_max n,
   escape_time_eq_none_iff c iteration_max⟩

/-- Witness for C1 at `c = 3 + 0i`, budget 2: the first iterate has squared
magnitude 9 > 4, so the escape index is 0. -/
theorem escape_time_correct_witness : escape_time ⟨3, 0⟩ 2 = some 0 :=
  ((escape_time_correct ⟨3, 0⟩ 2).1 0).mpr
    ⟨by norm_num, by norm_num [zIter, Cx.mul, Cx.add, Cx.norm_sqr],
     fun k hk => absurd hk (Nat.not_lt_zero k)⟩

/-- C2: the buffer returned by `calculate_pixel_data` has length exactly
`image_width * image_height`, and the element at row-major index
`y * image_width + x` is the pixel for coordinate `(x, y)` whose color is
`complex_to_grayscale` of the sample `pixel_to_complex x y`, with the
viewport corners derived from `origin` and `scale_factor`. -/
theorem calculate_pixel_data_correct (image_width image_height : Nat)
    (scale_factor : ℚ) (origin : Cx) (iteration_max : Nat)
    (hW : 0 < image_width) (hH : 0 < image_height) :
    (calculate_pixel_data image_width image_height scale_factor origin
        iteration_max).length = image_width * image_height ∧
    ∀ x y, x < image_width → y < image_height →
      (calculate_pixel_data image_width image_height scale_factor origin
          iteration_max)[y * image_width + x]? =
        some ⟨x, y, complex_to_grayscale
          (pixel_to_complex x y image_width image_height
            (origin.add (Cx.scale ⟨-2, 6/5⟩ scale_factor))
            (origin.add (Cx.scale ⟨1/2, -(6/5)⟩ scale_factor)))
          iteration_max⟩ := by
  rw [calculate_pixel_data_eq]
  constructor
  · exact (rowMajor_length _ _ _).trans (Nat.mul_comm _ _)
  · intro x y hx hy
    exact rowMajor_getElem image_width x hx _ image_height y hy

/-- Witness for C2 at a 2-by-1 image with zero scale and zero origin. -/
theorem calculate_pixel_data_correct_witness :
    (calculate_pixel_data 2 1 0 ⟨0, 0⟩ 1).length = 2 * 1 ∧
    (calculate_pixel_data 2 1 0 ⟨0, 0⟩ 1)[0 * 2 + 1]? =
      some ⟨1, 0, complex_to_grayscale
        (pixel_to_complex 1 0 2 1
          (Cx.add ⟨0, 0⟩ (Cx.scale ⟨-2, 6/5⟩ 0))
          (Cx.add ⟨0, 0⟩ (Cx.scale ⟨1/2, -(6/5)⟩ 0))) 1⟩ :=
  ⟨(calculate_pixel_data_correct 2 1 0 ⟨0, 0⟩ 1 (by norm_num) (by norm_num)).1,
   (calculate_pixel_data_correct 2 1 0 ⟨0, 0⟩ 1 (by norm_num) (by norm_num)).2
     1 0 (by norm_num) (by norm_num)⟩

/-- C3: the color classifier maps a non-escape to black `(0,0,0)` and an
escape at iteration `n` to the grayscale triple `(n % 256, n % 256, n % 256)`;
indices at or above 256 wrap modulo 256 rather than clamping. -/
theorem complex_to_grayscale_correct (c : Cx) (iteration_max : Nat) :
    (escape_time c iteration_max = none →
      complex_to_grayscale c iteration_max = ⟨0, 0, 0⟩) ∧
    ∀ n, escape_time c iteration_max = some n →
      complex_to_grayscale c iteration_max = ⟨n % 256, n % 256, n % 256⟩ := by
  constructor
  · intro h
    simp [complex_to_grayscale, h]
  · intro n h
    simp [complex_to_grayscale, h]

/-- Witness for C3 at `c = 0 + 3i`, which escapes at iteration 0. -/
theorem complex_to_grayscale_correct_witness :
    escape_time ⟨0, 3⟩ 1 = some 0 ∧
    complex_to_grayscale ⟨0, 3⟩ 1 = ⟨0 % 256, 0 % 256, 0 % 256⟩ := by
  have h : escape_time ⟨0, 3⟩ 1 = some 0 := by
    norm_num [escape_time, escapeLoop, Cx.mul, Cx.add, Cx.norm_sqr]
  exact ⟨h, (complex_to_grayscale_correct ⟨0, 3⟩ 1).2 0 h⟩

/-- C4 counterexample: at the concrete zero-area input
`scale_factor = 0` (and `iteration_max = 1`, a 1-by-1 image), the render call
does not fail: it performs the pixel computation and returns a computed
buffer, namely the single black pixel at the origin. -/
theorem calculate_pixel_data_zero_area_computes :
    calculate_pixel_data 1 1 0 ⟨0, 0⟩ 1 = [⟨0, 0, ⟨0, 0, 0⟩⟩] := by
  rw [calculate_pixel_data_eq]
  norm_num [List.range_succ, pixel_to_complex, complex_to_grayscale,
    escape_time, escapeLoop, Cx.add, Cx.mul, Cx.scale, Cx.norm_sqr]

/-- C4 amended: `calculate_pixel_data` performs no validation.  A zero
`image_height` or zero `image_width` yields the empty buffer, and a zero-area
viewport (`scale_factor = 0`) still computes a full
`image_width * image_height` buffer; no input is rejected. -/
theorem calculate_pixel_data_no_validation :
    (∀ W s o m, calculate_pixel_data W 0 s o m = []) ∧
    (∀ H s o m, calculate_pixel_data 0 H s o m = []) ∧
    (∀ W H o m, (calculate_pixel_data W H 0 o m).length = W * H) := by
  refine ⟨fun W s o m => ?_, fun H s o m => ?_, fun W H o m => ?_⟩
  · rw [calculate_pixel_data_eq]
    simp
  · rw [calculate_pixel_data_eq]
    simp [List.flatMap_eq_nil_iff]
  · rw [calculate_pixel_data_eq]
    exact (rowMajor_length _ _ _).trans (Nat.mul_comm _ _)

/-- C5: `pixel_to_complex` is the affine map
`top_left + (extent.re * (x/W), extent.im * (y/H))` with
`extent = bottom_right - top_left`, and it sends pixel `(0,0)` exactly to the
top-left corner. -/
theorem pixel_to_complex_correct (x y image_width image_height : Nat)
    (top_left bottom_right : Cx)
    (hW : 0 < image_width) (hH : 0 < image_height)
    (hx : x < image_width) (hy : y < image_height) :
    pixel_to_complex x y image_width image_height top_left bottom_right =
      top_left.add
        ⟨(bottom_right.sub top_left).re * ((x : ℚ) / (image_width : ℚ)),
         (bottom_right.sub top_left).im * ((y : ℚ) / (image_height : ℚ))⟩ ∧
    pixel_to_complex 0 0 image_width image_height top_left bottom_right =
      top_left := by
  constructor
  · simp only [pixel_to_complex, Cx.add, Cx.sub, Cx.mk.injEq]
    constructor <;> ring
  · simp [pixel_to_complex]

/-- Witness for C5 at pixel `(1,1)` of a 2-by-2 image with viewport corners
`-2 + i` and `1 - i`. -/
theorem pixel_to_complex_correct_witness :
    pixel_to_complex 1 1 2 2 ⟨-2, 1⟩ ⟨1, -1⟩ =
      Cx.add ⟨-2, 1⟩
        ⟨(Cx.sub ⟨1, -1⟩ ⟨-2, 1⟩).re * (((1 : Nat) : ℚ) / ((2 : Nat) : ℚ)),
         (Cx.sub ⟨1, -1⟩ ⟨-2, 1⟩).im * (((1 : Nat) : ℚ) / ((2 : Nat) : ℚ))⟩ ∧
    pixel_to_complex 0 0 2 2 ⟨-2, 1⟩ ⟨1, -1⟩ = ⟨-2, 1⟩ :=
  pixel_to_complex_correct 1 1 2 2 ⟨-2, 1⟩ ⟨1, -1⟩
    (by norm_num) (by norm_num) (by norm_num) (by norm_num)

/-- C6: a budget of zero iterations reports non-escape immediately, for every
complex sample. -/
theorem escape_time_zero_iterations (c : Cx) : escape_time c 0 = none := rfl

/-- C7: a sample strictly outside the closed disk of radius 2 (stated on
squared magnitudes: `norm_sqr c > 4`, the exact rational rendering of
`|c| > 2`) escapes at iteration 0 under any budget of at least 1, because the
first iterate is `c` itself. -/
theorem escape_time_outside_disk (c : Cx) (N : Nat)
    (hc : 4 < c.norm_sqr) (hN : 1 ≤ N) :
    escape_time c N = some 0 :=
  (escape_time_eq_some_iff c N 0).mpr
    ⟨hN,
     by
       have h1 : (0 : Nat) + 1 = 1 := rfl
       rw [h1, zIter_one]
       exact hc,
     fun k hk => absurd hk (Nat.not_lt_zero k)⟩

/-- Witness for C7 at `c = 3 + 0i` (squared magnitude 9) with budget 1. -/
theorem escape_time_outside_disk_witness :
    4 < Cx.norm_sqr ⟨3, 0⟩ ∧ 1 ≤ 1 ∧ escape_time ⟨3, 0⟩ 1 = some 0 :=
  ⟨by norm_num [Cx.norm_sqr], Nat.le_refl 1,
   escape_time_outside_disk ⟨3, 0⟩ 1 (by norm_num [Cx.norm_sqr]) (Nat.le_refl 1)⟩

/-- C8: the origin never escapes, for every iteration budget: the orbit of
`z -> z*z + 0` stays at `0`. -/
theorem escape_time_origin (N : Nat) : escape_time ⟨0, 0⟩ N = none :=
  (escape_time_eq_none_iff ⟨0, 0⟩ N).mpr fun k _ => by
    rw [zIter_origin]
    norm_num [Cx.norm_sqr]

/-- C9: the reported escape index does not depend on the budget once the
budget exceeds it: if `escape_time c m = some n` and `n < m'` then
`escape_time c m' = some n`. -/
theorem escape_time_budget_independent (c : Cx) (m mbig n : Nat)
    (h : escape_time c m = some n) (hbig : n < mbig) :
    escape_time c mbig = some n := by
  have h1 := (escape_time_eq_some_iff c m n).mp h
  exact (escape_time_eq_some_iff c mbig n).mpr ⟨hbig, h1.2.1, h1.2.2⟩

/-- Witness for C9: `c = 3 + 0i` escapes at index 0 under budget 1, and the
index is unchanged under the larger budget 3. -/
theorem escape_time_budget_independent_witness :
    escape_time ⟨3, 0⟩ 1 = some 0 ∧ 0 < 3 ∧ escape_time ⟨3, 0⟩ 3 = some 0 := by
  have h : escape_time ⟨3, 0⟩ 1 = some 0 := by
    norm_num [escape_time, escapeLoop, Cx.mul, Cx.add, Cx.norm_sqr]
  exact ⟨h, by norm_num,
    escape_time_budget_independent ⟨3, 0⟩ 1 3 0 h (by norm_num)⟩

/-- C10: black does not uniquely identify non-escaping points: a sample whose
escape index is a multiple of 256 (in particular index 0) receives the very
color `(0,0,0)` that a never-escaping sample receives, so the two cases are
indistinguishable in the output buffer. -/
theorem complex_to_grayscale_black_collision (c cin : Cx) (m min2 n : Nat)
    (h : escape_time c m = some n) (hn : n % 256 = 0)
    (hin : escape_time cin min2 = none) :
    complex_to_grayscale c m = ⟨0, 0, 0⟩ ∧
    complex_to_grayscale cin min2 = ⟨0, 0, 0⟩ ∧
    complex_to_grayscale c m = complex_to_grayscale cin min2 := by
  have h1 : complex_to_grayscale c m = ⟨0, 0, 0⟩ := by
    simp [complex_to_grayscale, h, hn]
  have h2 : complex_to_grayscale cin min2 = ⟨0, 0, 0⟩ := by
    simp [complex_to_grayscale, hin]
  exact ⟨h1, h2, h1.trans h2.symm⟩

/-- Witness for C10: `-3 + 0i` escapes at index 0 under budget 1 while the
origin never escapes under budget 2; both get black. -/
theorem complex_to_grayscale_black_collision_witness :
    escape_time ⟨-3, 0⟩ 1 = some 0 ∧ 0 % 256 = 0 ∧
    escape_time ⟨0, 0⟩ 2 = none ∧
    complex_to_grayscale ⟨-3, 0⟩ 1 = complex_to_grayscale ⟨0, 0⟩ 2 := by
  have h : escape_time ⟨-3, 0⟩ 1 = some 0 := by
    norm_num [escape_time, escapeLoop, Cx.mul, Cx.add, Cx.norm_sqr]
  have hin : escape_time ⟨0, 0⟩ 2 = none := by
    norm_num [escape_time, escapeLoop, Cx.mul, Cx.add, Cx.norm_sqr]
  exact ⟨h, rfl, hin,
    (complex_to_grayscale_black_collision ⟨-3, 0⟩ ⟨0, 0⟩ 1 2 0 h rfl hin).2.2⟩
